import Mathlib

/-!
Verification of the last.fm heatmap pipeline.

This file shallowly embeds the core logic of the repository:

* `app.py`: `fetch_page`, `fetch_all_pages`, `process_scrobble_data`
  (the canonical PageFetcher / PaginationController / EventNormalizer);
* `heatmap_v1.py`: the day-of-month × month pivot table built inside
  `create_heatmap` (the CalendarAggregator).

The network is modelled by an oracle `server : Nat → List Resp` giving, for
each page number, the stream of responses the remote API produces for
successive requests of that page.  Observable behaviour (requests issued and
sleeps performed) is recorded in a trace of `Action`s; sleep durations are in
milliseconds.  A Python function that can raise an uncaught exception is
embedded with an `Option` result, `none` marking the raised exception.
-/

namespace LastfmHeatmap

/-- One raw event record (one element of the `track` list of a page), keeping
the fields the source reads: the optional `@attr` object with its optional
`nowplaying` entry, and the optional `date` object with its optional `uts`
entry (an epoch-seconds string). -/
structure Attr where
  nowplaying : Option String
deriving DecidableEq, Repr

/-- The `date` object of a raw track: `{"uts": ..., "#text": ...}`; only
`uts` is read by `app.py`. -/
structure TrackDate where
  uts : Option String
deriving DecidableEq, Repr

/-- A raw track record as consumed by `process_scrobble_data` in `app.py`. -/
structure Track where
  attr : Option Attr
  date : Option TrackDate
deriving DecidableEq, Repr

/-- The `@attr` object of the `recenttracks` payload; only `totalPages`
(a string in the JSON) is read. -/
structure PageAttr where
  totalPages : Option String
deriving DecidableEq, Repr

/-- The `recenttracks` object of a page payload. -/
structure RecentTracks where
  attr : Option PageAttr
  track : Option (List Track)
deriving DecidableEq, Repr

/-- A parsed JSON page body; `recenttracks` may be absent. -/
structure PageData where
  recenttracks : Option RecentTracks
deriving DecidableEq, Repr

/-- One HTTP response of the remote API, as classified by `fetch_page` in
`app.py` (lines 57-79): status 200 with a parsed body (`ok (some d)`) or a
body whose parsing raises (`ok none`), status 429 with an optional
`Retry-After` header, any other status (`httpErr`), or a client error /
timeout / other exception (`netErr`). -/
inductive Resp where
  | ok (data : Option PageData)
  | rate (retryAfter : Option String)
  | httpErr
  | netErr
deriving DecidableEq, Repr

/-- An observable action of the fetcher: an HTTP request for a page, or a
sleep for the given number of milliseconds. -/
inductive Action where
  | request (page : Nat)
  | sleep (ms : Int)
deriving DecidableEq, Repr

/-- The query-parameter dictionary built in `fetch_all_pages` (`app.py`
lines 93-99) and mutated by `fetch_page` (line 49: `params['page'] = page`).
The `page` key is absent (`none`) until `fetch_page` first sets it. -/
structure Params where
  method : String
  user : String
  api_key : String
  fmt : String
  limit : Nat
  page : Option Nat
deriving DecidableEq, Repr

/-- ASCII whitespace, as stripped by Python `int` from its string argument. -/
def isSpaceChar (c : Char) : Bool :=
  c == ' ' || c == '\t' || c == '\n' || c == '\r'

/-- Strip leading and trailing whitespace from a character list. -/
def trimChars (l : List Char) : List Char :=
  ((l.dropWhile isSpaceChar).reverse.dropWhile isSpaceChar).reverse

/-- The value of a decimal digit character, if it is one. -/
def digitVal (c : Char) : Option Nat :=
  if ('0' ≤ c ∧ c ≤ '9') then some (c.toNat - 48) else none

/-- A non-empty all-digit character list read as a natural number;
`none` on an empty list or any non-digit character. -/
def digitsToNat (l : List Char) : Option Nat :=
  if l = [] then none
  else l.foldl (fun acc c => acc.bind (fun n => (digitVal c).map (fun d => 10 * n + d)))
    (some 0)

/-- Models Python `int(s)` on a string: surrounding whitespace is stripped,
one optional sign is allowed, and the rest must be one or more decimal
digits.  (Underscore digit grouping and non-ASCII digits are not modelled;
no input in this development uses them.) -/
def pyInt? (s : String) : Option Int :=
  match trimChars s.data with
  | [] => none
  | c :: cs =>
    if c = '-' then (digitsToNat cs).map (fun n => -(n : Int))
    else if c = '+' then (digitsToNat cs).map (fun n => (n : Int))
    else (digitsToNat (c :: cs)).map (fun n => (n : Int))

/-- `int(response.headers.get('Retry-After', 5))` (`app.py` line 64), in
milliseconds: an absent header falls back to 5 seconds; a present header is
parsed by `int`, and `none` records the `ValueError` that a non-numeric
header raises (which the surrounding `try` catches, making `fetch_page`
return `None`). -/
def retryWaitMs (h : Option String) : Option Int :=
  match h with
  | none => some 5000
  | some s => (pyInt? s).map (fun t => 1000 * t)

/-- The observable behaviour of `fetch_page` (`app.py` lines 35-79) for one
page, as a function of the stream of responses the server gives to repeated
requests of that page: a 200 returns the parsed body (or `None` when the
body fails to parse); a 429 whose `Retry-After` parses (or is absent,
falling back to 5 s) sleeps and re-requests the same page; a 429 whose
present header does not parse raises inside the `try`, is caught, and
returns `None`; any other status, client error or timeout returns `None`.
An exhausted response stream is treated as a connection failure.
Returns the page payload (`none` = Python `None`) and the action trace. -/
def fetch_page_core (page : Nat) : List Resp → Option PageData × List Action
  | [] => (none, [Action.request page])
  | r :: rest =>
    match r with
    | Resp.ok d => (d, [Action.request page])
    | Resp.httpErr => (none, [Action.request page])
    | Resp.netErr => (none, [Action.request page])
    | Resp.rate h =>
      match retryWaitMs h with
      | some w =>
        let out := fetch_page_core page rest
        (out.1, Action.request page :: Action.sleep w :: out.2)
      | none => (none, [Action.request page])

/-- The result of one `fetch_page` call: the returned payload, the trace of
requests and sleeps it performed, and the caller's `params` dictionary as it
stands after the call (the source mutates it in place). -/
structure FetchOut where
  data : Option PageData
  trace : List Action
  params : Params
deriving DecidableEq, Repr

/-- `fetch_page(session, url, params, page)` from `app.py`: sets
`params['page'] = page` (line 49, an in-place mutation of the caller's
dictionary, threaded here explicitly), performs the request, and on a 429
with a usable wait time sleeps and calls itself recursively on the same
page (line 67). -/
def fetch_page (page : Nat) (params : Params) : List Resp → FetchOut
  | [] => ⟨none, [Action.request page], { params with page := some page }⟩
  | r :: rest =>
    let ps := { params with page := some page }
    match r with
    | Resp.ok d => ⟨d, [Action.request page], ps⟩
    | Resp.httpErr => ⟨none, [Action.request page], ps⟩
    | Resp.netErr => ⟨none, [Action.request page], ps⟩
    | Resp.rate h =>
      match retryWaitMs h with
      | some w =>
        let out := fetch_page page ps rest
        ⟨out.data, Action.request page :: Action.sleep w :: out.trace, out.params⟩
      | none => ⟨none, [Action.request page], ps⟩

/-- `page_data.get('recenttracks', {}).get('track', [])` (`app.py`
line 129): the tracks of a page payload, `[]` when either key is absent. -/
def pageTracks (d : PageData) : List Track :=
  (d.recenttracks.bind RecentTracks.track).getD []

/-- The parameters dictionary as built at the top of `fetch_all_pages`
(`app.py` lines 93-99); no `page` key yet. -/
def initParams (username : String) : Params :=
  { method := "user.getrecenttracks", user := username, api_key := "KEY",
    fmt := "json", limit := 200, page := none }

/-- Reading the declared total page count from the first page
(`app.py` lines 109-115): `recent_tracks.get('@attr', {})` then
`int(attr.get('totalPages', 1))`.  An absent `@attr` or `totalPages` gives
the default `1`; a present but non-numeric `totalPages` makes `int` raise
`ValueError`, recorded as `none` (the `except` clause then returns `[]`). -/
def totalPagesOf (rt : RecentTracks) : Option Int :=
  match rt.attr with
  | none => some 1
  | some a =>
    match a.totalPages with
    | none => some 1
    | some s => pyInt? s

/-- The accumulated result of the page loop: the track list, the action
trace, and the `params` dictionary after its last mutation. -/
structure LoopOut where
  tracks : List Track
  trace : List Action
  params : Params
deriving DecidableEq, Repr

/-- The `for page in range(2, total_pages + 1)` loop of `fetch_all_pages`
(`app.py` lines 126-141), with `fuel` remaining iterations and `page` the
next page number: fetch the page; on a `None` result break; on a payload
with an empty (or absent) track list break; otherwise extend the
accumulator, sleep 200 ms, and continue. -/
def fetchLoop (server : Nat → List Resp) :
    Nat → Nat → Params → List Track → LoopOut
  | 0, _, ps, acc => ⟨acc, [], ps⟩
  | fuel + 1, page, ps, acc =>
    let f := fetch_page page ps (server page)
    match f.data with
    | none => ⟨acc, f.trace, f.params⟩
    | some d =>
      if pageTracks d = [] then ⟨acc, f.trace, f.params⟩
      else
        let rest := fetchLoop server fuel (page + 1) f.params (acc ++ pageTracks d)
        ⟨rest.tracks, f.trace ++ Action.sleep 200 :: rest.trace, rest.params⟩

/-- `fetch_all_pages(username, max_pages)` from `app.py` (lines 81-143):
fetch page 1; a `None` result, an absent `recenttracks` key, or a
non-numeric `totalPages` returns `[]`; otherwise clamp the declared total
to `max_pages`, take page 1's tracks, and run the loop over pages
`2..total`.  Returns the accumulated tracks and the full action trace. -/
def fetch_all_pages (server : Nat → List Resp) (username : String)
    (max_pages : Nat) : List Track × List Action :=
  let f1 := fetch_page 1 (initParams username) (server 1)
  match f1.data with
  | none => ([], f1.trace)
  | some d =>
    match d.recenttracks with
    | none => ([], f1.trace)
    | some rt =>
      match totalPagesOf rt with
      | none => ([], f1.trace)
      | some tp =>
        let total : Int := min tp (max_pages : Int)
        let lo := fetchLoop server (total - 1).toNat 2 f1.params (rt.track.getD [])
        (lo.tracks, f1.trace ++ lo.trace)

/-- The pages named by the `request` actions of a trace. -/
def requestedPages (tr : List Action) : List Nat :=
  tr.filterMap (fun a => match a with
    | Action.request p => some p
    | Action.sleep _ => none)

/-! ### EventNormalizer: `process_scrobble_data` (`app.py` lines 145-172) -/

/-- What the loop body of `process_scrobble_data` does with one track
(`app.py` lines 156-162). -/
inductive ExtractResult where
  | skip
  | keep (ts : Int)
  | err
deriving DecidableEq, Repr

/-- One iteration of the normalizer's loop: a track whose `@attr` carries
`nowplaying == 'true'` is skipped; then `track.get('date', {}).get('uts')`
is read, and a missing (or empty, hence falsy) value is skipped; otherwise
`int(scrobble_time)` either yields an epoch timestamp (`keep`) or raises an
uncaught `ValueError` (`err`). -/
def extractScrobble (t : Track) : ExtractResult :=
  if t.attr.bind Attr.nowplaying = some ("true") then ExtractResult.skip
  else
    match t.date.bind TrackDate.uts with
    | none => ExtractResult.skip
    | some s =>
      if s = "" then ExtractResult.skip
      else
        match pyInt? s with
        | some n => ExtractResult.keep n
        | none => ExtractResult.err

/-- The currently-playing test of `app.py` line 158:
`'@attr' in track and track['@attr'].get('nowplaying') == 'true'`. -/
def nowplayingB (t : Track) : Bool :=
  decide (t.attr.bind Attr.nowplaying = some ("true"))

/-- The timestamp the normalizer keeps for a track, if any. -/
def keepTs (t : Track) : Option Int :=
  match extractScrobble t with
  | ExtractResult.keep n => some n
  | _ => none

/-- The `scrobbles` accumulation loop of `process_scrobble_data`: `none`
records the uncaught `ValueError` raised by `int` on a non-numeric `uts`
(which aborts the whole call). -/
def collectScrobbles : List Track → Option (List Int)
  | [] => some []
  | t :: ts =>
    match extractScrobble t with
    | ExtractResult.err => none
    | ExtractResult.skip => collectScrobbles ts
    | ExtractResult.keep n => (collectScrobbles ts).map (fun l => n :: l)

/-- `datetime.fromtimestamp(ts).date()` collapsed to a day index: the
number of whole days since the epoch (floor division, modelling a zero
UTC offset). -/
def dateOfTimestamp (ts : Int) : Int :=
  Int.fdiv ts 86400

/-- `df.groupby('date').size().reset_index(name='count')`: one row per
distinct date, in ascending date order, carrying the number of occurrences
of that date. -/
def groupCounts (ds : List Int) : List (Int × Nat) :=
  ((ds.insertionSort (fun a b => a ≤ b)).dedup).map (fun d => (d, ds.count d))

/-- The daily-counts table built from the kept timestamps (`app.py`
lines 164-172): the empty list for no scrobbles, else the grouped counts of
the scrobbles' dates. -/
def dailyCountsOf (sc : List Int) : List (Int × Nat) :=
  if sc = [] then [] else groupCounts (sc.map dateOfTimestamp)

/-- `process_scrobble_data(all_tracks)` from `app.py`: `none` records an
uncaught exception (non-numeric `uts`); otherwise the daily-counts table. -/
def process_scrobble_data (tracks : List Track) : Option (List (Int × Nat)) :=
  (collectScrobbles tracks).map dailyCountsOf

/-! ### CalendarAggregator: the pivot table of `create_heatmap`
(`heatmap_v1.py` lines 76-98) -/

/-- A calendar date, as produced by `daily_counts['Day']`. -/
structure Date where
  year : Int
  month : Nat
  day : Nat
deriving DecidableEq, Repr

/-- A pandas month period (`.dt.to_period('M')`). -/
structure Period where
  year : Int
  month : Nat
deriving DecidableEq, Repr

/-- The month period of a date. -/
def periodOf (d : Date) : Period :=
  ⟨d.year, d.month⟩

/-- Gregorian leap-year rule. -/
def isLeapYear (y : Int) : Bool :=
  (y % 4 == 0 && y % 100 != 0) || (y % 400 == 0)

/-- `month.days_in_month` of a pandas period: the number of days of that
calendar month. -/
def daysInMonth (p : Period) : Nat :=
  if p.month = 2 then (if isLeapYear p.year then 29 else 28)
  else if p.month = 4 ∨ p.month = 6 ∨ p.month = 9 ∨ p.month = 11 then 30
  else 31

/-- The ordinal a pandas monthly period is ordered by (months since year
zero); period comparison is comparison of these ordinals. -/
def periodKey (p : Period) : Int :=
  12 * p.year + (p.month : Int) - 1

/-- A date is a real calendar date: its month is 1..12 and its day exists
in that month.  Every date produced by `datetime`/pandas upstream of the
aggregator satisfies this. -/
def ValidDate (d : Date) : Prop :=
  1 ≤ d.month ∧ d.month ≤ 12 ∧ 1 ≤ d.day ∧ d.day ≤ daysInMonth (periodOf d)

instance : DecidablePred ValidDate := fun d => by
  unfold ValidDate; infer_instance

/-- The column labels of `pivot_table` (`heatmap_v1.py` line 83): the
distinct `Month` periods occurring in `daily_counts`, in ascending period
order (pandas sorts pivot columns). -/
def pivotMonths (dc : List (Date × Nat)) : List Period :=
  (((dc.map (fun e => periodOf e.1)).insertionSort
      (fun a b => periodKey a ≤ periodKey b)).dedup)

/-- Whether some row of `daily_counts` has the given day-of-month, i.e.
whether the day is in the pivot's row index before reindexing. -/
def dayPresent (dc : List (Date × Nat)) (day : Nat) : Bool :=
  dc.any (fun e => e.1.day == day)

/-- The aggregated count of the rows of `daily_counts` falling on the given
(day-of-month, month) cell.  `daily_counts` comes from a `groupby`, so each
cell aggregates at most one row and the pivot's mean equals this sum. -/
def cellSum (dc : List (Date × Nat)) (day : Nat) (m : Period) : Nat :=
  ((dc.filter (fun e => decide (e.1.day = day ∧ periodOf e.1 = m))).map
    (fun e => e.2)).sum

/-- The value of cell `(day, m)` of the matrix handed to Plotly, for
`day ∈ 1..31` (`heatmap_v1.py` lines 83-95): after
`pivot_table(..., fill_value=0)`, `reindex(range(1, 32))` and the loop
setting `None` where `day > month.days_in_month`, a cell is missing
(`none`, rendered as a gap: `NaN` or `None`) exactly when the day exceeds
the month's length or when no row of `daily_counts` has that day-of-month
in any month; otherwise it carries the aggregated count, `0` (from
`fill_value`) when the day occurs only in other month columns. -/
def pivotCell (dc : List (Date × Nat)) (day : Nat) (m : Period) : Option Nat :=
  if daysInMonth m < day then none
  else if dayPresent dc day then some (cellSum dc day m) else none

/-- The number of non-missing cells of a month column, over the 31 rows of
the reindexed pivot. -/
def validCellCount (dc : List (Date × Nat)) (m : Period) : Nat :=
  ((List.range' 1 31).filter (fun day => (pivotCell dc day m).isSome)).length

/-! ### Helper lemmas about the fetcher and the pagination loop -/

/-- `fetch_page` computed via `fetch_page_core`: the payload and trace do
not depend on `params`, and the only effect on `params` is setting its
`page` entry. -/
theorem fetch_page_eq_core (page : Nat) (rs : List Resp) : ∀ ps : Params,
    fetch_page page ps rs =
      ⟨(fetch_page_core page rs).1, (fetch_page_core page rs).2,
        { ps with page := some page }⟩ := by
  induction rs with
  | nil => intro ps; rfl
  | cons r rest ih =>
    intro ps
    cases r with
    | ok d => rfl
    | httpErr => rfl
    | netErr => rfl
    | rate h =>
      cases hw : retryWaitMs h with
      | none => simp only [fetch_page, fetch_page_core, hw]
      | some w => simp only [fetch_page, fetch_page_core, hw, ih]

theorem requestedPages_append (l₁ l₂ : List Action) :
    requestedPages (l₁ ++ l₂) = requestedPages l₁ ++ requestedPages l₂ := by
  simp [requestedPages]

theorem requestedPages_sleep_cons (w : Int) (l : List Action) :
    requestedPages (Action.sleep w :: l) = requestedPages l := by
  simp [requestedPages]

theorem requestedPages_request_cons (p : Nat) (l : List Action) :
    requestedPages (Action.request p :: l) = p :: requestedPages l := by
  simp [requestedPages]

/-- All requests issued by one `fetch_page` call are for its own page. -/
theorem requestedPages_core (page : Nat) (rs : List Resp) :
    ∀ q ∈ requestedPages (fetch_page_core page rs).2, q = page := by
  induction rs with
  | nil =>
    intro q hq
    simp [fetch_page_core, requestedPages] at hq
    exact hq
  | cons r rest ih =>
    intro q hq
    cases r with
    | ok d => simp [fetch_page_core, requestedPages] at hq; exact hq
    | httpErr => simp [fetch_page_core, requestedPages] at hq; exact hq
    | netErr => simp [fetch_page_core, requestedPages] at hq; exact hq
    | rate h =>
      cases hw : retryWaitMs h with
      | none =>
        simp [fetch_page_core, hw, requestedPages] at hq
        exact hq
      | some w =>
        simp only [fetch_page_core, hw] at hq
        rw [requestedPages_request_cons, requestedPages_sleep_cons] at hq
        cases hq with
        | head => rfl
        | tail _ hq => exact ih q hq

/-- All requests issued by the page loop started at `page` with `fuel`
remaining iterations are for pages in `[page, page + fuel)`. -/
theorem requestedPages_fetchLoop (server : Nat → List Resp) :
    ∀ (fuel page : Nat) (ps : Params) (acc : List Track),
      ∀ q ∈ requestedPages (fetchLoop server fuel page ps acc).trace,
        page ≤ q ∧ q < page + fuel := by
  intro fuel
  induction fuel with
  | zero =>
    intro page ps acc q hq
    simp [fetchLoop, requestedPages] at hq
  | succ n ih =>
    intro page ps acc q hq
    rw [show fetchLoop server (n + 1) page ps acc =
        (let f := fetch_page page ps (server page)
         match f.data with
         | none => ⟨acc, f.trace, f.params⟩
         | some d =>
           if pageTracks d = [] then ⟨acc, f.trace, f.params⟩
           else
             let rest := fetchLoop server n (page + 1) f.params (acc ++ pageTracks d)
             ⟨rest.tracks, f.trace ++ Action.sleep 200 :: rest.trace, rest.params⟩)
       from rfl] at hq
    rw [fetch_page_eq_core] at hq
    cases hd : (fetch_page_core page (server page)).1 with
    | none =>
      simp only [hd] at hq
      have := requestedPages_core page (server page) q hq
      omega
    | some d =>
      simp only [hd] at hq
      by_cases hts : pageTracks d = []
      · rw [if_pos hts] at hq
        have := requestedPages_core page (server page) q hq
        omega
      · rw [if_neg hts] at hq
        simp only [requestedPages_append] at hq
        rw [requestedPages_sleep_cons] at hq
        rcases List.mem_append.mp hq with h1 | h2
        · have := requestedPages_core page (server page) q h1
          omega
        · have := ih (page + 1) _ _ q h2
          omega

/-- The tracks a page contributes when fetched: its track list, `[]` on a
failed fetch. -/
def tracksAt (server : Nat → List Resp) (p : Nat) : List Track :=
  ((fetch_page_core p (server p)).1.map pageTracks).getD []

/-- Concatenated contributions of `c` consecutive pages starting at
`start`. -/
def tracksRange (server : Nat → List Resp) : Nat → Nat → List Track
  | _, 0 => []
  | start, c + 1 => tracksAt server start ++ tracksRange server (start + 1) c

/-- Concatenated traces (with the 200 ms pacing sleep) of `c` consecutive
successfully fetched pages starting at `start`. -/
def traceRange (server : Nat → List Resp) : Nat → Nat → List Action
  | _, 0 => []
  | start, c + 1 =>
    (fetch_page_core start (server start)).2 ++
      Action.sleep 200 :: traceRange server (start + 1) c

/-- Page `p` fetches successfully with a non-empty track list. -/
def goodPageB (server : Nat → List Resp) (p : Nat) : Bool :=
  match (fetch_page_core p (server p)).1 with
  | some d => decide (pageTracks d ≠ [])
  | none => false

/-- Page `p` makes the loop stop: its fetch fails, or succeeds with an
empty track list. -/
def stopPageB (server : Nat → List Resp) (p : Nat) : Bool :=
  match (fetch_page_core p (server p)).1 with
  | some d => decide (pageTracks d = [])
  | none => true

/-- Exact behaviour of the page loop when pages `start..n-1` are good and
page `n` stops it: the accumulator is extended by exactly the good pages'
tracks, the trace is their traces followed by page `n`'s fetch trace and
nothing else, and `params` was last mutated by the fetch of page `n`. -/
theorem fetchLoop_stop (server : Nat → List Resp) :
    ∀ (fuel start n : Nat) (ps : Params) (acc : List Track),
      start ≤ n → n < start + fuel →
      (∀ p, start ≤ p → p < n → goodPageB server p = true) →
      stopPageB server n = true →
      fetchLoop server fuel start ps acc =
        ⟨acc ++ tracksRange server start (n - start),
         traceRange server start (n - start) ++ (fetch_page_core n (server n)).2,
         { ps with page := some n }⟩ := by
  intro fuel
  induction fuel with
  | zero => intro start n ps acc h1 h2 _ _; omega
  | succ m ih =>
    intro start n ps acc h1 h2 hgood hstop
    rw [show fetchLoop server (m + 1) start ps acc =
        (let f := fetch_page start ps (server start)
         match f.data with
         | none => ⟨acc, f.trace, f.params⟩
         | some d =>
           if pageTracks d = [] then ⟨acc, f.trace, f.params⟩
           else
             let rest := fetchLoop server m (start + 1) f.params (acc ++ pageTracks d)
             ⟨rest.tracks, f.trace ++ Action.sleep 200 :: rest.trace, rest.params⟩)
       from rfl]
    rw [fetch_page_eq_core]
    rcases Nat.eq_or_lt_of_le h1 with heq | hlt
    · subst heq
      unfold stopPageB at hstop
      cases hd : (fetch_page_core start (server start)).1 with
      | none =>
        simp only [hd, Nat.sub_self]
        show (⟨acc, _, _⟩ : LoopOut) = _
        simp [tracksRange, traceRange]
      | some d =>
        rw [hd] at hstop
        have hts : pageTracks d = [] := by simpa using hstop
        simp only [hd, if_pos hts, Nat.sub_self]
        simp [tracksRange, traceRange]
    · have hg := hgood start (Nat.le_refl start) hlt
      unfold goodPageB at hg
      cases hd : (fetch_page_core start (server start)).1 with
      | none => rw [hd] at hg; exact absurd hg (by simp)
      | some d =>
        rw [hd] at hg
        have hts : pageTracks d ≠ [] := by simpa using hg
        simp only [hd, if_neg hts]
        rw [ih (start + 1) n _ _ hlt (by omega)
          (fun p hp1 hp2 => hgood p (by omega) hp2) hstop]
        have hc : n - start = (n - (start + 1)) + 1 := by omega
        rw [hc]
        show (⟨(acc ++ pageTracks d) ++ tracksRange server (start + 1) (n - (start + 1)),
              (fetch_page_core start (server start)).2 ++
                Action.sleep 200 :: (traceRange server (start + 1) (n - (start + 1)) ++
                  (fetch_page_core n (server n)).2), _⟩ : LoopOut) = _
        simp only [tracksRange, traceRange, tracksAt, hd, Option.map_some, Option.getD_some]
        simp [List.append_assoc]

/-! ### Helper lemmas about the normalizer -/

/-- The scrobble loop succeeds exactly when no track raises, and then
collects, in order, exactly the timestamps of the kept tracks. -/
theorem collectScrobbles_eq (tracks : List Track) (sc : List Int) :
    collectScrobbles tracks = some sc ↔
      (∀ t ∈ tracks, extractScrobble t ≠ ExtractResult.err) ∧
        sc = tracks.filterMap keepTs := by
  induction tracks generalizing sc with
  | nil => simp [collectScrobbles]
  | cons t ts ih =>
    cases he : extractScrobble t with
    | err => simp [collectScrobbles, he]
    | skip =>
      simp [collectScrobbles, he, ih, keepTs, List.filterMap_cons]
    | keep n =>
      simp only [collectScrobbles, he, Option.map_eq_some', ih,
        List.forall_mem_cons, List.filterMap_cons, keepTs]
      constructor
      · rintro ⟨l, ⟨hall, rfl⟩, rfl⟩
        exact ⟨⟨by simp [he], hall⟩, rfl⟩
      · rintro ⟨⟨_, hall⟩, rfl⟩
        exact ⟨ts.filterMap keepTs, ⟨hall, rfl⟩, rfl⟩

/-- Removing the currently-playing tracks does not change the collected
scrobbles: the normalizer skips them before reading any timestamp. -/
theorem collectScrobbles_filter_nowplaying (tracks : List Track) :
    collectScrobbles (tracks.filter (fun t => !nowplayingB t)) =
      collectScrobbles tracks := by
  induction tracks with
  | nil => rfl
  | cons t ts ih =>
    by_cases hnp : nowplayingB t = true
    · have hskip : extractScrobble t = ExtractResult.skip := by
        unfold extractScrobble
        rw [if_pos (by simpa [nowplayingB] using hnp)]
      simp [List.filter_cons, hnp, collectScrobbles, hskip, ih]
    · cases he : extractScrobble t with
      | err => simp [List.filter_cons, hnp, collectScrobbles, he]
      | skip => simp [List.filter_cons, hnp, collectScrobbles, he, ih]
      | keep n => simp [List.filter_cons, hnp, collectScrobbles, he, ih]

/-- Generic: the length of a `filterMap` is the number of elements on which
the function succeeds. -/
theorem length_filterMap_isSome {α β : Type} (f : α → Option β) (l : List α) :
    (l.filterMap f).length = (l.filter (fun a => (f a).isSome)).length := by
  induction l with
  | nil => rfl
  | cons a l ih =>
    cases hf : f a <;>
      simp [List.filterMap_cons, List.filter_cons, hf, ih]

/-- The per-date counts of `groupCounts` sum to the number of grouped
elements. -/
theorem groupCounts_sum (ds : List Int) :
    ((groupCounts ds).map (fun e => e.2)).sum = ds.length := by
  unfold groupCounts
  have h1 : (((ds.insertionSort (fun a b => a ≤ b)).dedup).map
        (fun d => (d, ds.count d))).map (fun e => e.2) =
      ((ds.insertionSort (fun a b => a ≤ b)).dedup).map (fun d => ds.count d) := by
    simp [List.map_map, Function.comp]
  rw [h1]
  have hperm : List.Perm ((ds.insertionSort (fun a b => a ≤ b)).dedup) ds.dedup :=
    (List.perm_insertionSort _ ds).dedup
  rw [(hperm.map (fun d => ds.count d)).sum_eq]
  exact List.sum_map_count_dedup_eq_length ds

/-- The date column of `groupCounts` is the sorted deduplication of the
input. -/
theorem groupCounts_keys (ds : List Int) :
    (groupCounts ds).map (fun e => e.1) =
      (ds.insertionSort (fun a b => a ≤ b)).dedup := by
  unfold groupCounts
  simp [List.map_map, Function.comp_def]

/-- Each date appears in at most one row of `groupCounts`. -/
theorem groupCounts_keys_nodup (ds : List Int) :
    ((groupCounts ds).map (fun e => e.1)).Nodup := by
  rw [groupCounts_keys]
  exact List.nodup_dedup _

/-- Every grouped element's date has a row. -/
theorem mem_groupCounts_keys {d : Int} {ds : List Int} (h : d ∈ ds) :
    d ∈ (groupCounts ds).map (fun e => e.1) := by
  rw [groupCounts_keys, List.mem_dedup]
  exact (List.perm_insertionSort _ ds).mem_iff.mpr h

/-! ### Helper lemmas about the aggregator -/

instance : IsTotal Period (fun a b => periodKey a ≤ periodKey b) :=
  ⟨fun a b => le_total (periodKey a) (periodKey b)⟩

instance : IsTrans Period (fun a b => periodKey a ≤ periodKey b) :=
  ⟨fun _ _ _ h1 h2 => le_trans h1 h2⟩

/-- The pivot's columns are exactly the months occurring in
`daily_counts`. -/
theorem mem_pivotMonths (dc : List (Date × Nat)) (m : Period) :
    m ∈ pivotMonths dc ↔ ∃ e ∈ dc, periodOf e.1 = m := by
  unfold pivotMonths
  rw [List.mem_dedup, (List.perm_insertionSort _ _).mem_iff]
  simp [List.mem_map]

/-- The pivot's columns are in ascending period order. -/
theorem pivotMonths_sorted (dc : List (Date × Nat)) :
    (pivotMonths dc).Pairwise (fun a b => periodKey a ≤ periodKey b) :=
  List.Pairwise.sublist (List.dedup_sublist _) (List.sorted_insertionSort _ _)

/-- The pivot's columns are distinct. -/
theorem pivotMonths_nodup (dc : List (Date × Nat)) :
    (pivotMonths dc).Nodup :=
  List.nodup_dedup _

/-- On real months (1..12), the period ordinal determines the period. -/
theorem periodKey_inj {a b : Period}
    (ha1 : 1 ≤ a.month) (ha2 : a.month ≤ 12)
    (hb1 : 1 ≤ b.month) (hb2 : b.month ≤ 12)
    (h : periodKey a = periodKey b) : a = b := by
  cases a with
  | mk ya ma =>
    cases b with
    | mk yb mb =>
      unfold periodKey at h
      simp only [Period.mk.injEq]
      simp only at ha1 ha2 hb1 hb2 h
      omega

/-- A helpful unfolding of `fetch_all_pages` through `fetch_page_core`. -/
theorem fetch_all_pages_eq (server : Nat → List Resp) (u : String) (k : Nat) :
    fetch_all_pages server u k =
      match (fetch_page_core 1 (server 1)).1 with
      | none => ([], (fetch_page_core 1 (server 1)).2)
      | some d =>
        match d.recenttracks with
        | none => ([], (fetch_page_core 1 (server 1)).2)
        | some rt =>
          match totalPagesOf rt with
          | none => ([], (fetch_page_core 1 (server 1)).2)
          | some tp =>
            let lo := fetchLoop server (min tp (k : Int) - 1).toNat 2
              { initParams u with page := some 1 } (rt.track.getD [])
            (lo.tracks, (fetch_page_core 1 (server 1)).2 ++ lo.trace) := by
  unfold fetch_all_pages
  rw [fetch_page_eq_core]

/-- All requests issued in the traces of `c` consecutive good pages
starting at `start` are for pages in `[start, start + c)`. -/
theorem requestedPages_traceRange (server : Nat → List Resp) :
    ∀ (c start : Nat), ∀ q ∈ requestedPages (traceRange server start c),
      start ≤ q ∧ q < start + c := by
  intro c
  induction c with
  | zero => intro start q hq; simp [traceRange, requestedPages] at hq
  | succ n ih =>
    intro start q hq
    simp only [traceRange, requestedPages_append, requestedPages_sleep_cons] at hq
    rcases List.mem_append.mp hq with h1 | h2
    · have := requestedPages_core start (server start) q h1
      omega
    · have := ih (start + 1) q h2
      omega

/-! ### The claims -/

/-- C1: the spec claims a cell of the pivot matrix is `Invalid` if and only
if the day-of-month exceeds the month's length, every other cell being a
count (with `Count(0)` default), so that each column has `daysInMonth(M)`
valid cells.  The code violates this: `reindex(range(1, 32))`
(`heatmap_v1.py` line 86) inserts `NaN` — not `0` — rows for every
day-of-month absent from the data, so a perfectly valid day with no events
anywhere is rendered as missing, exactly like a non-existent day.  At the
failing input `daily_counts = [(2024-01-01, 3)]`: day 2 exists in January
2024 (which has 31 days) yet its cell is missing, and the January column
has only 1 valid cell instead of 31. -/
theorem C1_cell_invariant_eval :
    pivotCell [(⟨2024, 1, 1⟩, 3)] 2 ⟨2024, 1⟩ = none ∧
    daysInMonth ⟨2024, 1⟩ = 31 ∧
    validCellCount [(⟨2024, 1, 1⟩, 3)] ⟨2024, 1⟩ = 1 := by
  decide

/-- C2: for every server behaviour, username and `max_pages = k ≥ 1`, the
controller `fetch_all_pages` issues requests for at most `k` distinct
pages, even when page 1's metadata declares a total page count greater
than `k` (the declared total is clamped with
`total_pages = min(total_pages, max_pages)`, `app.py` line 118). -/
theorem C2_at_most_k_pages (server : Nat → List Resp) (u : String) (k : Nat)
    (hk : 1 ≤ k) :
    ((requestedPages (fetch_all_pages server u k).2).toFinset).card ≤ k := by
  have hmem : ∀ q ∈ requestedPages (fetch_all_pages server u k).2,
      1 ≤ q ∧ q ≤ k := by
    intro q hq
    rw [fetch_all_pages_eq] at hq
    cases hd : (fetch_page_core 1 (server 1)).1 with
    | none =>
      simp only [hd] at hq
      have := requestedPages_core 1 (server 1) q hq
      omega
    | some d =>
      simp only [hd] at hq
      cases hrt : d.recenttracks with
      | none =>
        simp only [hrt] at hq
        have := requestedPages_core 1 (server 1) q hq
        omega
      | some rt =>
        simp only [hrt] at hq
        cases htp : totalPagesOf rt with
        | none =>
          simp only [htp] at hq
          have := requestedPages_core 1 (server 1) q hq
          omega
        | some tp =>
          simp only [htp, requestedPages_append] at hq
          rcases List.mem_append.mp hq with h1 | h2
          · have := requestedPages_core 1 (server 1) q h1
            omega
          · have hb := requestedPages_fetchLoop server _ 2 _ _ q h2
            have hfuel : (min tp (k : Int) - 1).toNat ≤ k - 1 := by omega
            omega
  have hsub : (requestedPages (fetch_all_pages server u k).2).toFinset ⊆
      Finset.Icc 1 k := by
    intro q hq
    rw [List.mem_toFinset] at hq
    exact Finset.mem_Icc.mpr (hmem q hq)
  have := Finset.card_le_card hsub
  simpa [Nat.card_Icc] using this

theorem C2_at_most_k_pages_witness :
    ((requestedPages
      (fetch_all_pages (fun _ => [Resp.netErr]) ("u") 1).2).toFinset).card ≤ 1 :=
  C2_at_most_k_pages (fun _ => [Resp.netErr]) ("u") 1 (by decide)

/-- C3 counterexample: the claim says the month columns form the contiguous
range from the earliest to the latest event month, a month without events
appearing as an all-zero column.  With events on 2024-01-01 and 2024-03-01
the code produces only the columns January and March: `pivot_table`'s
columns are the months present in `daily_counts`, and February is
skipped. -/
theorem C3_counterexample :
    pivotMonths [(⟨2024, 1, 1⟩, 1), (⟨2024, 3, 1⟩, 1)] =
      [⟨2024, 1⟩, ⟨2024, 3⟩] ∧
    (⟨2024, 2⟩ : Period) ∉ pivotMonths [(⟨2024, 1, 1⟩, 1), (⟨2024, 3, 1⟩, 1)] := by
  decide

/-- C3 (amended): for daily counts over real calendar dates, the month
columns of the matrix are exactly the distinct months that contain at
least one event, in strictly ascending chronological order; an intervening
month with zero events does not appear at all. -/
theorem C3_months_of_matrix (dc : List (Date × Nat))
    (hv : ∀ e ∈ dc, 1 ≤ e.1.month ∧ e.1.month ≤ 12) :
    (∀ m : Period, m ∈ pivotMonths dc ↔ ∃ e ∈ dc, periodOf e.1 = m) ∧
    (pivotMonths dc).Pairwise (fun a b => periodKey a < periodKey b) := by
  refine ⟨mem_pivotMonths dc, ?_⟩
  have hmonth : ∀ m ∈ pivotMonths dc, 1 ≤ m.month ∧ m.month ≤ 12 := by
    intro m hm
    rcases (mem_pivotMonths dc m).mp hm with ⟨e, he, rfl⟩
    exact hv e he
  have hcomb := (pivotMonths_sorted dc).and (pivotMonths_nodup dc)
  refine hcomb.imp_of_mem ?_
  intro a b ha hb hab
  rcases hab with ⟨hle, hne⟩
  rcases hmonth a ha with ⟨ha1, ha2⟩
  rcases hmonth b hb with ⟨hb1, hb2⟩
  rcases lt_or_eq_of_le hle with h | h
  · exact h
  · exact absurd (periodKey_inj ha1 ha2 hb1 hb2 h) hne

theorem C3_months_of_matrix_witness :
    (pivotMonths [(⟨2024, 1, 1⟩, 1), (⟨2024, 3, 1⟩, 1)]).Pairwise
      (fun a b => periodKey a < periodKey b) :=
  (C3_months_of_matrix [(⟨2024, 1, 1⟩, 1), (⟨2024, 3, 1⟩, 1)] (by decide)).2

/-- C4: during pagination over pages `2..effectiveTotal`, if pages
`2..n-1` fetch successfully with non-empty track lists and page `n` either
fails (`None` from `fetch_page`) or succeeds with an empty track list,
then the controller returns page 1's tracks plus exactly the tracks of
pages `2..n-1` (a non-error partial result), its trace ends with the fetch
of page `n` (so page `n` is not re-fetched by the controller), and no page
beyond `n` is ever requested. -/
theorem C4_stop_and_keep_acc (server : Nat → List Resp) (u : String)
    (k : Nat) (d : PageData) (rt : RecentTracks) (tp : Int) (n : Nat)
    (h1 : (fetch_page_core 1 (server 1)).1 = some d)
    (hrt : d.recenttracks = some rt)
    (htp : totalPagesOf rt = some tp)
    (hn2 : 2 ≤ n) (hnT : (n : Int) ≤ min tp (k : Int))
    (hgood : ∀ p, p < n → 2 ≤ p → goodPageB server p = true)
    (hstop : stopPageB server n = true) :
    fetch_all_pages server u k =
      (rt.track.getD [] ++ tracksRange server 2 (n - 2),
       (fetch_page_core 1 (server 1)).2 ++
         (traceRange server 2 (n - 2) ++ (fetch_page_core n (server n)).2)) ∧
    (∀ q ∈ requestedPages (fetch_all_pages server u k).2, q ≤ n) := by
  have hmain : fetch_all_pages server u k =
      (rt.track.getD [] ++ tracksRange server 2 (n - 2),
       (fetch_page_core 1 (server 1)).2 ++
         (traceRange server 2 (n - 2) ++ (fetch_page_core n (server n)).2)) := by
    rw [fetch_all_pages_eq]
    simp only [h1, hrt, htp]
    rw [fetchLoop_stop server ((min tp (k : Int) - 1).toNat) 2 n
      { initParams u with page := some 1 } (rt.track.getD []) hn2 (by omega)
      (fun p hp1 hp2 => hgood p hp2 hp1) hstop]
  refine ⟨hmain, ?_⟩
  intro q hq
  rw [hmain] at hq
  simp only [requestedPages_append] at hq
  rcases List.mem_append.mp hq with h1' | h23
  · have := requestedPages_core 1 (server 1) q h1'
    omega
  · rcases List.mem_append.mp h23 with h2' | h3'
    · have := requestedPages_traceRange server (n - 2) 2 q h2'
      omega
    · have := requestedPages_core n (server n) q h3'
      omega

theorem C4_stop_and_keep_acc_witness :
    (let server : Nat → List Resp := fun p =>
      if p = 1 then
        [Resp.ok (some ⟨some ⟨some ⟨some ("5")⟩,
          some [⟨none, some ⟨some ("100")⟩⟩]⟩⟩)]
      else if p = 2 then
        [Resp.ok (some ⟨some ⟨none, some [⟨none, some ⟨some ("200")⟩⟩]⟩⟩)]
      else if p = 3 then [Resp.netErr]
      else []
     fetch_all_pages server ("u") 10 =
      ((⟨some ⟨some ("5")⟩, some [⟨none, some ⟨some ("100")⟩⟩]⟩ :
          RecentTracks).track.getD [] ++ tracksRange server 2 1,
       (fetch_page_core 1 (server 1)).2 ++
         (traceRange server 2 1 ++ (fetch_page_core 3 (server 3)).2))) :=
  (C4_stop_and_keep_acc _ ("u") 10
    ⟨some ⟨some ⟨some ("5")⟩, some [⟨none, some ⟨some ("100")⟩⟩]⟩⟩
    ⟨some ⟨some ("5")⟩, some [⟨none, some ⟨some ("100")⟩⟩]⟩ 5 3
    (by decide) (by decide) (by decide) (by decide) (by decide)
    (by decide) (by decide)).1

/-- C5 counterexample: the claim says a 429 always leads to a wait (5 s
fallback when the `Retry-After` header is absent or unparsable) and a
retry of the same page, never to a failure.  But in
`int(response.headers.get('Retry-After', 5))` (`app.py` line 64) a present
non-numeric header makes `int` raise, the surrounding generic `except`
catches it and `fetch_page` returns `None`: with `Retry-After: soon` the
page is classified as a failure after a single request, with no sleep and
no retry, even though the next response would have succeeded. -/
theorem C5_counterexample :
    fetch_page_core 3 [Resp.rate (some ("soon")), Resp.ok (some ⟨none⟩)] =
      (none, [Action.request 3]) := by
  decide

/-- C5 (amended): on HTTP 429 the fetcher waits the parsed `Retry-After`
duration — 5 seconds when the header is absent — and re-requests the same
page before any later action, for arbitrarily many consecutive 429s; but
when the header is present and non-numeric, the fetch is classified as a
failure (`None`) after that single request, with no wait and no retry. -/
theorem C5_rate_limit_behaviour (p : Nat) (hs : List (Option String))
    (rest : List Resp)
    (hok : ∀ h ∈ hs, (retryWaitMs h).isSome = true) :
    (fetch_page_core p (hs.map Resp.rate ++ rest) =
      ((fetch_page_core p rest).1,
       (hs.map (fun h =>
         [Action.request p, Action.sleep ((retryWaitMs h).getD 0)])).flatten ++
         (fetch_page_core p rest).2)) ∧
    (∀ s, pyInt? s = none →
      fetch_page_core p (Resp.rate (some s) :: rest) =
        (none, [Action.request p])) := by
  refine ⟨?_, ?_⟩
  · induction hs with
    | nil => simp
    | cons h t ih =>
      have hh : (retryWaitMs h).isSome = true := hok h (List.mem_cons_self h t)
      rcases Option.isSome_iff_exists.mp hh with ⟨w, hw⟩
      have step : fetch_page_core p (Resp.rate h :: (t.map Resp.rate ++ rest)) =
          ((fetch_page_core p (t.map Resp.rate ++ rest)).1,
           Action.request p :: Action.sleep w ::
             (fetch_page_core p (t.map Resp.rate ++ rest)).2) := by
        simp [fetch_page_core, hw]
      simp only [List.map_cons, List.cons_append, List.flatten_cons]
      rw [step, ih (fun x hx => hok x (List.mem_cons_of_mem _ hx))]
      simp [hw]
  · intro s hs'
    simp [fetch_page_core, retryWaitMs, hs']

theorem C5_rate_limit_behaviour_witness :
    fetch_page_core 3 (([some ("2"), none] : List (Option String)).map Resp.rate
        ++ [Resp.ok none]) =
      ((fetch_page_core 3 [Resp.ok none]).1,
       (([some ("2"), none] : List (Option String)).map (fun h =>
         [Action.request 3, Action.sleep ((retryWaitMs h).getD 0)])).flatten ++
         (fetch_page_core 3 [Resp.ok none]).2) :=
  (C5_rate_limit_behaviour 3 [some ("2"), none] [Resp.ok none] (by decide)).1

/-- C6 counterexample: the claim says a successful first page whose
total-page-count field is non-numeric is treated as a single page and its
events returned.  But `int(attr.get('totalPages', 1))` raises
`ValueError`, the `except (KeyError, ValueError)` clause (`app.py`
lines 113-115) returns `[]`, and the first page's events are discarded:
with `totalPages = "ten"` and one track on page 1, the controller returns
the empty list. -/
theorem C6_counterexample :
    fetch_all_pages (fun _ => [Resp.ok (some ⟨some ⟨some ⟨some ("ten")⟩,
        some [⟨none, some ⟨some ("100")⟩⟩]⟩⟩)]) ("u") 10 =
      ([], [Action.request 1]) := by
  decide

/-- C6 (amended): after a successful first page, a *missing* total-page
field (no `@attr` or no `totalPages` key) is treated as a total of 1 and
page 1's events are returned; a *present but non-numeric* field instead
makes the controller return the empty list, discarding page 1's events. -/
theorem C6_total_pages_fallback (server : Nat → List Resp) (u : String)
    (k : Nat) (d : PageData) (rt : RecentTracks)
    (hk : 1 ≤ k)
    (h1 : (fetch_page_core 1 (server 1)).1 = some d)
    (hrt : d.recenttracks = some rt) :
    ((rt.attr = none ∨ ∃ a, rt.attr = some a ∧ a.totalPages = none) →
      fetch_all_pages server u k =
        (rt.track.getD [], (fetch_page_core 1 (server 1)).2)) ∧
    (∀ a s, rt.attr = some a → a.totalPages = some s → pyInt? s = none →
      fetch_all_pages server u k = ([], (fetch_page_core 1 (server 1)).2)) := by
  constructor
  · intro hmiss
    have htp : totalPagesOf rt = some 1 := by
      rcases hmiss with h | ⟨a, ha, hb⟩
      · simp [totalPagesOf, h]
      · simp [totalPagesOf, ha, hb]
    rw [fetch_all_pages_eq]
    simp only [h1, hrt, htp]
    have hz : (min (1 : Int) (k : Int) - 1).toNat = 0 := by omega
    rw [hz]
    simp [fetchLoop]
  · intro a s ha hts hparse
    have htp : totalPagesOf rt = none := by
      simp [totalPagesOf, ha, hts, hparse]
    rw [fetch_all_pages_eq]
    simp only [h1, hrt, htp]

theorem C6_total_pages_fallback_witness :
    fetch_all_pages (fun _ => [Resp.ok (some ⟨some ⟨none,
        some [⟨none, some ⟨some ("100")⟩⟩]⟩⟩)]) ("u") 10 =
      ((⟨none, some [⟨none, some ⟨some ("100")⟩⟩]⟩ : RecentTracks).track.getD [],
       (fetch_page_core 1 ((fun _ => [Resp.ok (some ⟨some ⟨none,
         some [⟨none, some ⟨some ("100")⟩⟩]⟩⟩)]) 1)).2) :=
  ((C6_total_pages_fallback _ ("u") 10
    ⟨some ⟨none, some [⟨none, some ⟨some ("100")⟩⟩]⟩⟩
    ⟨none, some [⟨none, some ⟨some ("100")⟩⟩]⟩
    (by decide) (by decide) (by decide)).1 (Or.inl rfl))

/-- C7: events flagged as currently playing (`@attr.nowplaying == 'true'`)
are dropped by the normalizer before any timestamp is read: removing them
from the input leaves the entire output of `process_scrobble_data` — hence
every daily count, and every cell of any matrix built from those counts —
unchanged, so such an event contributes to no count and no cell. -/
theorem C7_nowplaying_dropped (tracks : List Track) :
    process_scrobble_data (tracks.filter (fun t => !nowplayingB t)) =
      process_scrobble_data tracks := by
  unfold process_scrobble_data
  rw [collectScrobbles_filter_nowplaying]

/-- C8 counterexample: the claim says events with a missing *or
unparsable* timestamp are dropped silently with no exception.  But
`int(scrobble_time)` (`app.py` line 162) is not guarded: a present,
non-empty, non-numeric `uts` raises an uncaught `ValueError` (modelled by
the `none` result), aborting the whole normalizer call instead of dropping
the record. -/
theorem C8_counterexample :
    process_scrobble_data [⟨none, some ⟨some ("12x")⟩⟩] = none := by
  decide

/-- C8 (amended): events whose timestamp is missing (no `date` key, no
`uts` key, or an empty — hence falsy — `uts`) are dropped silently, and
the normalizer returns the table built from the remaining events; but an
event with a present, non-empty, non-numeric timestamp raises an uncaught
conversion error.  Stated for inputs with no such raising record: the
normalizer returns (no exception) exactly the grouped counts of the kept
events. -/
theorem C8_drop_missing_silently (tracks : List Track)
    (hok : ∀ t ∈ tracks, extractScrobble t ≠ ExtractResult.err) :
    process_scrobble_data tracks =
      some (dailyCountsOf (tracks.filterMap keepTs)) := by
  unfold process_scrobble_data
  rw [(collectScrobbles_eq tracks (tracks.filterMap keepTs)).mpr ⟨hok, rfl⟩]
  rfl

theorem C8_drop_missing_silently_witness :
    process_scrobble_data
        [⟨none, some ⟨some ("100")⟩⟩, ⟨none, none⟩, ⟨none, some ⟨none⟩⟩,
         ⟨none, some ⟨some ("")⟩⟩] =
      some (dailyCountsOf
        (([⟨none, some ⟨some ("100")⟩⟩, ⟨none, none⟩, ⟨none, some ⟨none⟩⟩,
          ⟨none, some ⟨some ("")⟩⟩] : List Track).filterMap keepTs)) :=
  C8_drop_missing_silently _ (by decide)

/-- C9 counterexample: the claim says a `fetch_page` call leaves the
caller-supplied request-parameter structure unchanged.  But
`params['page'] = page` (`app.py` line 49) mutates the caller's
dictionary: after fetching page 2 with a fresh parameter dictionary (no
`page` key yet), the dictionary has gained `page = 2`. -/
theorem C9_counterexample :
    (fetch_page 2 (initParams ("alice")) [Resp.netErr]).params ≠
      initParams ("alice") := by
  decide

/-- C9 (amended): a `fetch_page` call has exactly one caller-visible side
effect beyond its network requests and rate-limit sleeps: it sets the
`page` entry of the caller-supplied parameter dictionary to the requested
page (its payload and trace are a function of the page and the server's
responses alone, independent of `params`). -/
theorem C9_params_mutation (page : Nat) (ps : Params) (rs : List Resp) :
    (fetch_page page ps rs).params = { ps with page := some page } ∧
    (fetch_page page ps rs).data = (fetch_page_core page rs).1 ∧
    (fetch_page page ps rs).trace = (fetch_page_core page rs).2 := by
  rw [fetch_page_eq_core]
  exact ⟨rfl, rfl, rfl⟩

/-- C10: whenever `process_scrobble_data` returns a table (it raises on no
input it is given here), the counts over all rows sum to exactly the
number of input tracks that are kept — not flagged currently-playing and
carrying a present, non-empty, parsable `uts` timestamp — the table's
dates are pairwise distinct, and every kept track's date has a row: each
kept event is counted in exactly one date row. -/
theorem C10_count_conservation (tracks : List Track) (dcs : List (Int × Nat))
    (h : process_scrobble_data tracks = some dcs) :
    ((dcs.map (fun e => e.2)).sum =
      (tracks.filter (fun t => (keepTs t).isSome)).length) ∧
    ((dcs.map (fun e => e.1)).Nodup) ∧
    (∀ t ∈ tracks, ∀ ts, keepTs t = some ts →
      dateOfTimestamp ts ∈ dcs.map (fun e => e.1)) := by
  unfold process_scrobble_data at h
  rcases Option.map_eq_some'.mp h with ⟨sc, hsc, rfl⟩
  rcases (collectScrobbles_eq tracks sc).mp hsc with ⟨hall, rfl⟩
  unfold dailyCountsOf
  by_cases hempty : tracks.filterMap keepTs = []
  · rw [if_pos hempty]
    refine ⟨?_, by simp, ?_⟩
    · have hlen := length_filterMap_isSome keepTs tracks
      rw [hempty] at hlen
      simp only [List.length_nil] at hlen
      simp only [List.map_nil, List.sum_nil]
      omega
    · intro t ht ts hts
      have : ts ∈ tracks.filterMap keepTs :=
        List.mem_filterMap.mpr ⟨t, ht, hts⟩
      rw [hempty] at this
      simp at this
  · rw [if_neg hempty]
    refine ⟨?_, groupCounts_keys_nodup _, ?_⟩
    · rw [groupCounts_sum, List.length_map, length_filterMap_isSome]
    · intro t ht ts hts
      exact mem_groupCounts_keys
        (List.mem_map_of_mem dateOfTimestamp
          (List.mem_filterMap.mpr ⟨t, ht, hts⟩))

theorem C10_count_conservation_witness :
    ((([((0 : Int), (1 : Nat)), ((1 : Int), (1 : Nat))]).map
        (fun e => e.2)).sum =
      (([⟨none, some ⟨some ("100")⟩⟩, ⟨none, some ⟨some ("90000")⟩⟩,
        ⟨some ⟨some ("true")⟩, none⟩, ⟨none, none⟩] : List Track).filter
          (fun t => (keepTs t).isSome)).length) :=
  (C10_count_conservation
    [⟨none, some ⟨some ("100")⟩⟩, ⟨none, some ⟨some ("90000")⟩⟩,
     ⟨some ⟨some ("true")⟩, none⟩, ⟨none, none⟩]
    [((0 : Int), (1 : Nat)), ((1 : Int), (1 : Nat))] (by decide)).1

end LastfmHeatmap
